import Mathlib

/-!
Verification of the `command-history` undo/redo engine.

Shallow embedding of `src/command-history.ts` (class `CommandHistory`).

Modelling conventions:
* A stack (`undoCommands`, `redoCommands`) is a `List` whose HEAD is the top
  of the stack: `push` is `cons`, `pop` reads the head and keeps the tail.
* A command object (`ICommand`) is modelled as a snapshot of the data the
  engine observes: an identity tag `id` (object identity), the current value
  of its `isNoop()` predicate (`isNoopB`), whether it declares the optional
  `coalesce` capability (`hasCoalesce`), and its `description`.  The
  behaviour of its asynchronous `execute()`, and of the incumbent's
  `coalesce(ncmd)` call, are supplied at each engine call site as explicit
  oracle arguments (`eres : CommandResult`, `coalesceResult`), since they are
  external callbacks; quantifying over the oracles quantifies over all
  command behaviours.  Commands are treated as immutable values.
* `timeoutId` is modelled as the Boolean "a coalescence timer is currently
  pending" (`timeoutId !== null` with a live callback); `clearTimeout`
  makes it false, `setTimeout` makes it true, and the timer firing is a
  separate transition (`Step.timerFire`).
* `console.info` messages, the `cleanup()` hook, and each invocation of a
  command's `execute`/`undo`/`redo` operation are recorded in an `Event`
  trace returned alongside the new state, so that "operation X was (not)
  invoked" is provable from the trace.
* A busy-guard `throw` is `Except.error` with the exact message string;
  since every such `throw` in the source precedes any mutation, a
  busy-rejected call leaves the state unchanged by construction.
* A rejection of an awaited command operation (`command.undo()`,
  `command.redo()`, `ncmd.execute()`) is NOT a busy-guard throw: it
  propagates out of a call that has already mutated state (spec section 7:
  partial progress is retained, and the trailing flag resets are skipped).
  `CommandHistory.undo`/`redo`/`execute` model the runs in which every
  awaited operation resolves; `undoF`/`redoF`/`executeF` take an additional
  rejection oracle and model the failing runs too, returning the state in
  which the call ends plus a flag saying whether its promise rejected.
  The `..._no_reject` lemmas prove the former are the fault-free
  projections of the latter.
* The `_busy` field is updated exactly where the source updates it, so that
  the early-`return` paths of `execute` (which skip `this._busy = false`)
  are reproduced faithfully.
-/

inductive CoalescenceResult where
  | IMMISCIBLE
  | COALESCED
  | UNDONE
deriving DecidableEq

inductive CommandResult where
  | ADD
  | NOOP
  | CLEAR
deriving DecidableEq

/-- Snapshot of an `ICommand` object as observed by the engine (see module
doc comment: behavioural members are oracle arguments at call sites). -/
structure ICommand where
  id : Nat
  isNoopB : Bool
  hasCoalesce : Bool
  description : String
deriving DecidableEq

/-- Observable events: informational `console.info` messages, the `cleanup`
hook, and invocations of a command's own async operations. -/
inductive Event where
  | invokedExecute (id : Nat)
  | invokedUndo (id : Nat)
  | invokedRedo (id : Nat)
  | coalesced (d : String)
  | dropped (d : String)
  | added (d : String)
  | clearedInfo (d : String)
  | noopInfo (d : String)
  | undidInfo (d : String)
  | redidInfo (d : String)
  | cleanupCalled
deriving DecidableEq

/-- The state of a `CommandHistory` instance: the two stacks, the
coalescence-eligibility flag `can_coalesce`, whether a coalescence timer is
pending (`timeoutId`), the configured `coalescenceWindow`, and `_busy`. -/
structure CommandHistory where
  undoCommands : List ICommand
  redoCommands : List ICommand
  can_coalesce : Bool
  timeoutId : Bool
  coalescenceWindow : Int
  busy : Bool
deriving DecidableEq

/-- A freshly constructed engine: both stacks empty, `can_coalesce = true`
(field initialiser in the source), no pending timer, not busy. -/
def initHistory (coalescenceWindow : Int) : CommandHistory :=
  { undoCommands := []
    redoCommands := []
    can_coalesce := true
    timeoutId := false
    coalescenceWindow := coalescenceWindow
    busy := false }

/-- Getter `undoCount`: number of non-no-op entries of the undo stack. -/
def CommandHistory.undoCount (s : CommandHistory) : Nat :=
  (s.undoCommands.filter (fun c => !c.isNoopB)).length

/-- Getter `redoCount`: depth of the redo stack. -/
def CommandHistory.redoCount (s : CommandHistory) : Nat :=
  s.redoCommands.length

/-- Getter `undoDescription`: description of the topmost non-no-op undo entry,
scanning from the top; "None" if there is none. -/
def CommandHistory.undoDescription (s : CommandHistory) : String :=
  match s.undoCommands.find? (fun c => !c.isNoopB) with
  | some c => c.description
  | none => ("None")

/-- Getter `redoDescription`: description of the top redo entry, "None" if empty. -/
def CommandHistory.redoDescription (s : CommandHistory) : String :=
  match s.redoCommands with
  | c :: _ => c.description
  | [] => ("None")

/-- Method `coalescenceBarrier()`: unconditionally sets `can_coalesce = false`. -/
def CommandHistory.coalescenceBarrier (s : CommandHistory) : CommandHistory :=
  { s with can_coalesce := false }

/-- Method `pop()`: rejects while busy; otherwise `this.undoCommands.pop()`
(drops the top undo entry; a pop on an empty array is a silent no-op). -/
def CommandHistory.pop (s : CommandHistory) : Except String CommandHistory :=
  if s.busy then
    Except.error ("Cannot alter command history state during an operation.")
  else
    Except.ok { s with undoCommands := s.undoCommands.tail }

/-- Method `clear()`: rejects while busy; otherwise truncates both stacks. -/
def CommandHistory.clear (s : CommandHistory) : Except String CommandHistory :=
  if s.busy then
    Except.error ("Cannot alter command history state during an operation.")
  else
    Except.ok { s with undoCommands := [], redoCommands := [] }

/-- The `while` loop of `undo(levels)`, for the runs in which every
awaited `command.undo()` resolves: while `levels > 0` and the undo
stack is non-empty, pop the top command; if `isNoop()` holds, `continue`
(discard, no decrement); otherwise invoke its `undo()`, log, push it onto
the redo stack and decrement `levels`.  Returns the final undo stack, the
final redo stack, and the event trace. -/
def undoLoop : Int → List ICommand → List ICommand →
    List ICommand × List ICommand × List Event
  | _, [], rs => ([], rs, [])
  | levels, c :: us, rs =>
    if levels ≤ 0 then (c :: us, rs, [])
    else if c.isNoopB then undoLoop levels us rs
    else
      match undoLoop (levels - 1) us (c :: rs) with
      | (us2, rs2, evs) =>
        (us2, rs2, Event.invokedUndo c.id :: Event.undidInfo c.description :: evs)

/-- The `while` loop of `redo(levels)`, for the runs in which every
awaited `command.redo()` resolves: while `levels > 0` and the redo
stack is non-empty, pop the top command, invoke its `redo()` (no no-op
check), log, push it onto the undo stack and decrement `levels`.  Arguments:
levels, redo stack, undo stack; returns final redo stack, final undo stack,
trace. -/
def redoLoop : Int → List ICommand → List ICommand →
    List ICommand × List ICommand × List Event
  | _, [], us => ([], us, [])
  | levels, c :: rs, us =>
    if levels ≤ 0 then (c :: rs, us, [])
    else
      match redoLoop (levels - 1) rs (c :: us) with
      | (rs2, us2, evs) =>
        (rs2, us2, Event.invokedRedo c.id :: Event.redidInfo c.description :: evs)

/-- Method `undo(levels)` (async), for the runs in which every awaited
`command.undo()` resolves (rejection-aware generalisation: `undoF`):
throws while busy; otherwise runs the loop, then unconditionally
`can_coalesce = false`, `cleanup()`, `_busy = false`. -/
def CommandHistory.undo (s : CommandHistory) (levels : Int) :
    Except String (CommandHistory × List Event) :=
  if s.busy then Except.error ("Cannot undo during another operation.")
  else
    match undoLoop levels s.undoCommands s.redoCommands with
    | (us, rs, evs) =>
      Except.ok
        ({ s with undoCommands := us, redoCommands := rs,
                  can_coalesce := false, busy := false },
         evs ++ [Event.cleanupCalled])

/-- Method `redo(levels)` (async), for the runs in which every awaited
`command.redo()` resolves (rejection-aware generalisation: `redoF`):
throws while busy; otherwise runs the loop, then unconditionally
`can_coalesce = false`, `cleanup()`, `_busy = false`. -/
def CommandHistory.redo (s : CommandHistory) (levels : Int) :
    Except String (CommandHistory × List Event) :=
  if s.busy then Except.error ("Cannot redo during another operation.")
  else
    match redoLoop levels s.redoCommands s.undoCommands with
    | (rs, us, evs) =>
      Except.ok
        ({ s with undoCommands := us, redoCommands := rs,
                  can_coalesce := false, busy := false },
         evs ++ [Event.cleanupCalled])

/-- Normal execution tail of `execute` (reached when the new command was not
absorbed by coalescence): `await ncmd.execute()` (its result is the oracle
`eres`), switch on the result, then `_busy = false`, then the timer rearm:
clear any pending timer, and if `coalescenceWindow > 0` schedule a new one,
else `can_coalesce = false`. -/
def normalExecution (s : CommandHistory) (ncmd : ICommand)
    (eres : CommandResult) : CommandHistory × List Event :=
  let step :=
    match eres with
    | CommandResult.ADD =>
        ({ s with undoCommands := ncmd :: s.undoCommands,
                  redoCommands := [], can_coalesce := true },
         Event.added ncmd.description)
    | CommandResult.CLEAR =>
        ({ s with undoCommands := [], redoCommands := [],
                  can_coalesce := false },
         Event.clearedInfo ncmd.description)
    | CommandResult.NOOP => (s, Event.noopInfo ncmd.description)
  let s3 : CommandHistory := { step.1 with busy := false }
  let s4 : CommandHistory :=
    if 0 < s3.coalescenceWindow then { s3 with timeoutId := true }
    else { s3 with can_coalesce := false, timeoutId := false }
  (s4, [Event.invokedExecute ncmd.id, step.2])

/-- Method `execute(ctor, ...args)` (async), for the runs in which the
awaited `ncmd.execute()` resolves (rejection-aware generalisation:
`executeF`): throws while busy; sets `_busy = true`;
constructs `ncmd`; if `can_coalesce`, pops the incumbent `lcmd` (when the
undo stack is non-empty) and, when it has a `coalesce` capability, consults
it (oracle `coalesceResult`): IMMISCIBLE pushes the incumbent back and falls
through, COALESCED pushes it back and RETURNS (note: without resetting
`_busy`), UNDONE drops it and RETURNS (likewise without resetting `_busy`);
an incumbent without the capability is pushed back.  Otherwise falls through
to `normalExecution`. -/
def CommandHistory.execute (s : CommandHistory) (ncmd : ICommand)
    (coalesceResult : CoalescenceResult) (eres : CommandResult) :
    Except String (CommandHistory × List Event) :=
  if s.busy then Except.error ("Cannot execute command during another operation.")
  else
    let s1 : CommandHistory := { s with busy := true }
    match s1.can_coalesce, s1.undoCommands with
    | true, lcmd :: rest =>
      if lcmd.hasCoalesce then
        match coalesceResult with
        | CoalescenceResult.IMMISCIBLE => Except.ok (normalExecution s1 ncmd eres)
        | CoalescenceResult.COALESCED =>
            Except.ok (s1, [Event.coalesced ncmd.description])
        | CoalescenceResult.UNDONE =>
            Except.ok ({ s1 with undoCommands := rest },
                       [Event.dropped ncmd.description])
      else Except.ok (normalExecution s1 ncmd eres)
    | _, _ => Except.ok (normalExecution s1 ncmd eres)

/-- True when this call of `execute` will consult the incumbent's `coalesce`
capability: eligibility flag set, undo stack non-empty, incumbent declares
the capability. -/
def consultsCoalesce (s : CommandHistory) : Bool :=
  s.can_coalesce &&
    (match s.undoCommands with
     | [] => false
     | lcmd :: _ => lcmd.hasCoalesce)

/-- The `undo(levels)` loop with the possibility that an awaited
`command.undo()` rejects (spec section 7: the exception propagates, partial
progress of earlier iterations is retained).  The oracle `rejects c` says
whether the `undo()` promise of snapshot `c` rejects on this call.  On a
rejection the popped command is on neither stack (it was popped before the
`await`, and the redo push is never reached), the loop aborts, and the
fourth component is `true`; `undoLoop` is the `rejects = fun c => false`
projection (see `undoLoopF_no_reject`). -/
def undoLoopF (rejects : ICommand → Bool) :
    Int → List ICommand → List ICommand →
    List ICommand × List ICommand × List Event × Bool
  | _, [], rs => ([], rs, [], false)
  | levels, c :: us, rs =>
    if levels ≤ 0 then (c :: us, rs, [], false)
    else if c.isNoopB then undoLoopF rejects levels us rs
    else if rejects c then (us, rs, [Event.invokedUndo c.id], true)
    else
      match undoLoopF rejects (levels - 1) us (c :: rs) with
      | (us2, rs2, evs, failed) =>
        (us2, rs2,
         Event.invokedUndo c.id :: Event.undidInfo c.description :: evs, failed)

/-- The `redo(levels)` loop with the possibility that an awaited
`command.redo()` rejects, symmetric to `undoLoopF` (the popped command ends
up on neither stack, partial progress is retained, the loop aborts). -/
def redoLoopF (rejects : ICommand → Bool) :
    Int → List ICommand → List ICommand →
    List ICommand × List ICommand × List Event × Bool
  | _, [], us => ([], us, [], false)
  | levels, c :: rs, us =>
    if levels ≤ 0 then (c :: rs, us, [], false)
    else if rejects c then (rs, us, [Event.invokedRedo c.id], true)
    else
      match redoLoopF rejects (levels - 1) rs (c :: us) with
      | (rs2, us2, evs, failed) =>
        (rs2, us2,
         Event.invokedRedo c.id :: Event.redidInfo c.description :: evs, failed)

/-- Method `undo(levels)` including the command-rejection path.  The result
records the state in which the call ends together with whether its promise
rejected (third component `true`).  On a mid-loop rejection the trailing
statements of the source are skipped: `can_coalesce` keeps its old value,
the cleanup hook is not invoked, and `_busy` — set on entry — is never
reset, so the engine stays busy. -/
def CommandHistory.undoF (s : CommandHistory) (levels : Int)
    (rejects : ICommand → Bool) :
    Except String (CommandHistory × List Event × Bool) :=
  if s.busy then Except.error ("Cannot undo during another operation.")
  else
    match undoLoopF rejects levels s.undoCommands s.redoCommands with
    | (us, rs, evs, failed) =>
      if failed then
        Except.ok ({ s with undoCommands := us, redoCommands := rs,
                            busy := true }, evs, true)
      else
        Except.ok ({ s with undoCommands := us, redoCommands := rs,
                            can_coalesce := false, busy := false },
                   evs ++ [Event.cleanupCalled], false)

/-- Method `redo(levels)` including the command-rejection path, symmetric
to `undoF`. -/
def CommandHistory.redoF (s : CommandHistory) (levels : Int)
    (rejects : ICommand → Bool) :
    Except String (CommandHistory × List Event × Bool) :=
  if s.busy then Except.error ("Cannot redo during another operation.")
  else
    match redoLoopF rejects levels s.redoCommands s.undoCommands with
    | (rs, us, evs, failed) =>
      if failed then
        Except.ok ({ s with undoCommands := us, redoCommands := rs,
                            busy := true }, evs, true)
      else
        Except.ok ({ s with undoCommands := us, redoCommands := rs,
                            can_coalesce := false, busy := false },
                   evs ++ [Event.cleanupCalled], false)

/-- Normal-execution tail of `execute` including the case in which the
awaited `ncmd.execute()` rejects (`applyRejects = true`): the switch, the
`_busy = false` reset and the timer epilogue are all skipped, so the state
is exactly the busy-marked state the coalescence phase produced. -/
def normalExecutionF (s : CommandHistory) (ncmd : ICommand)
    (er : CommandResult) (applyRejects : Bool) :
    CommandHistory × List Event × Bool :=
  if applyRejects then (s, [Event.invokedExecute ncmd.id], true)
  else
    ((normalExecution s ncmd er).1, (normalExecution s ncmd er).2, false)

/-- Method `execute` including the path on which the awaited
`ncmd.execute()` rejects (third result component `true`; the engine stays
busy on that path). -/
def CommandHistory.executeF (s : CommandHistory) (ncmd : ICommand)
    (cr : CoalescenceResult) (er : CommandResult) (applyRejects : Bool) :
    Except String (CommandHistory × List Event × Bool) :=
  if s.busy then Except.error ("Cannot execute command during another operation.")
  else
    let s1 : CommandHistory := { s with busy := true }
    match s1.can_coalesce, s1.undoCommands with
    | true, lcmd :: rest =>
      if lcmd.hasCoalesce then
        match cr with
        | CoalescenceResult.IMMISCIBLE =>
            Except.ok (normalExecutionF s1 ncmd er applyRejects)
        | CoalescenceResult.COALESCED =>
            Except.ok (s1, [Event.coalesced ncmd.description], false)
        | CoalescenceResult.UNDONE =>
            Except.ok ({ s1 with undoCommands := rest },
                       [Event.dropped ncmd.description], false)
      else Except.ok (normalExecutionF s1 ncmd er applyRejects)
    | _, _ => Except.ok (normalExecutionF s1 ncmd er applyRejects)

/-- One transition of a `CommandHistory` instance between the moments at
which no call is on the JavaScript stack: a public mutating call whose
awaited command operations all resolve OR one that terminates by a
command-operation rejection (the rejection oracles of
`executeF`/`undoF`/`redoF` range over all behaviours, so both completions
and spec-section-7 failures are covered, with their retained partial
progress), a `coalescenceBarrier()` call, or the pending coalescence timer
firing (its callback sets `can_coalesce = false` and clears the handle).
Busy-guard throws precede every mutation and so need no step; command
rejections DO change state and are included through the failing results of
the F-variants. -/
inductive Step : CommandHistory → CommandHistory → Prop where
  | execStep (s : CommandHistory) (ncmd : ICommand) (cr : CoalescenceResult)
      (er : CommandResult) (applyRejects : Bool) (s2 : CommandHistory)
      (evs : List Event) (failed : Bool) :
      s.executeF ncmd cr er applyRejects = Except.ok (s2, evs, failed) → Step s s2
  | undoStep (s : CommandHistory) (levels : Int) (rejects : ICommand → Bool)
      (s2 : CommandHistory) (evs : List Event) (failed : Bool) :
      s.undoF levels rejects = Except.ok (s2, evs, failed) → Step s s2
  | redoStep (s : CommandHistory) (levels : Int) (rejects : ICommand → Bool)
      (s2 : CommandHistory) (evs : List Event) (failed : Bool) :
      s.redoF levels rejects = Except.ok (s2, evs, failed) → Step s s2
  | popStep (s s2 : CommandHistory) : s.pop = Except.ok s2 → Step s s2
  | clearStep (s s2 : CommandHistory) : s.clear = Except.ok s2 → Step s s2
  | barrierStep (s : CommandHistory) : Step s s.coalescenceBarrier
  | timerFire (s : CommandHistory) : s.timeoutId = true →
      Step s { s with can_coalesce := false, timeoutId := false }

/-- States reachable from a freshly constructed engine with window `w`,
through completed and failed calls alike. -/
def Reachable (w : Int) (s : CommandHistory) : Prop :=
  Relation.ReflTransGen Step (initHistory w) s

/-- A loop run with non-positive `levels` does nothing. -/
theorem undoLoop_nonpos (levels : Int) (us rs : List ICommand) (h : levels ≤ 0) :
    undoLoop levels us rs = (us, rs, []) := by
  cases us with
  | nil => simp [undoLoop]
  | cons c us => simp [undoLoop, h]

/-- A redo loop run with non-positive `levels` does nothing. -/
theorem redoLoop_nonpos (levels : Int) (rs us : List ICommand) (h : levels ≤ 0) :
    redoLoop levels rs us = (rs, us, []) := by
  cases rs with
  | nil => simp [redoLoop]
  | cons c rs => simp [redoLoop, h]


/-- Calling `execute` on a busy engine throws immediately. -/
theorem execute_busy_eq (s : CommandHistory) (ncmd : ICommand)
    (cr : CoalescenceResult) (er : CommandResult) (h : s.busy = true) :
    s.execute ncmd cr er =
      Except.error ("Cannot execute command during another operation.") := by
  simp [CommandHistory.execute, h]

/-- Normal form of `execute` on a non-busy engine: the coalescence phase is
decided by `consultsCoalesce` and the oracle, everything else is
`normalExecution` of the busy-marked state. -/
theorem execute_eq_of_not_busy (s : CommandHistory) (ncmd : ICommand)
    (cr : CoalescenceResult) (er : CommandResult) (h : s.busy = false) :
    s.execute ncmd cr er =
      (if consultsCoalesce s then
        match cr with
        | CoalescenceResult.IMMISCIBLE =>
            Except.ok (normalExecution { s with busy := true } ncmd er)
        | CoalescenceResult.COALESCED =>
            Except.ok ({ s with busy := true }, [Event.coalesced ncmd.description])
        | CoalescenceResult.UNDONE =>
            Except.ok
              ({ s with busy := true, undoCommands := s.undoCommands.tail },
               [Event.dropped ncmd.description])
       else Except.ok (normalExecution { s with busy := true } ncmd er)) := by
  obtain ⟨us, rs, cc, ti, w, b⟩ := s
  simp only at h
  subst h
  cases cc with
  | false => cases us <;> simp [CommandHistory.execute, consultsCoalesce]
  | true =>
    cases us with
    | nil => simp [CommandHistory.execute, consultsCoalesce]
    | cons lcmd rest =>
      obtain ⟨cid, cnoop, ccoal, cdesc⟩ := lcmd
      cases ccoal <;> cases cr <;>
        simp [CommandHistory.execute, consultsCoalesce]

/-- Undo stack after `normalExecution`. -/
theorem normalExecution_undo (s : CommandHistory) (n : ICommand) (er : CommandResult) :
    (normalExecution s n er).1.undoCommands =
      (match er with
       | CommandResult.ADD => n :: s.undoCommands
       | CommandResult.CLEAR => []
       | CommandResult.NOOP => s.undoCommands) := by
  cases er <;> simp only [normalExecution] <;> split <;> rfl

/-- Redo stack after `normalExecution`. -/
theorem normalExecution_redo (s : CommandHistory) (n : ICommand) (er : CommandResult) :
    (normalExecution s n er).1.redoCommands =
      (match er with
       | CommandResult.ADD => []
       | CommandResult.CLEAR => []
       | CommandResult.NOOP => s.redoCommands) := by
  cases er <;> simp only [normalExecution] <;> split <;> rfl

/-- Coalescence flag after `normalExecution`: set by ADD, cleared by CLEAR,
kept by NOOP — and then forcibly cleared by the epilogue when the window is
non-positive. -/
theorem normalExecution_coalesce (s : CommandHistory) (n : ICommand) (er : CommandResult) :
    (normalExecution s n er).1.can_coalesce =
      (if 0 < s.coalescenceWindow then
        (match er with
         | CommandResult.ADD => true
         | CommandResult.CLEAR => false
         | CommandResult.NOOP => s.can_coalesce)
       else false) := by
  cases er <;> simp only [normalExecution] <;> split <;> simp_all

/-- The function `normalExecution` ends with `_busy = false`. -/
theorem normalExecution_busy (s : CommandHistory) (n : ICommand) (er : CommandResult) :
    (normalExecution s n er).1.busy = false := by
  cases er <;> simp only [normalExecution] <;> split <;> rfl

/-- Timer handle after `normalExecution`: pending exactly when the window is
positive. -/
theorem normalExecution_timeout (s : CommandHistory) (n : ICommand) (er : CommandResult) :
    (normalExecution s n er).1.timeoutId = decide (0 < s.coalescenceWindow) := by
  cases er <;> simp only [normalExecution] <;> split <;> simp_all

/-- The window is configuration, never changed. -/
theorem normalExecution_window (s : CommandHistory) (n : ICommand) (er : CommandResult) :
    (normalExecution s n er).1.coalescenceWindow = s.coalescenceWindow := by
  cases er <;> simp only [normalExecution] <;> split <;> rfl

/-- Events of `normalExecution`: the invocation of `ncmd.execute()` followed
by the branch's informational message. -/
theorem normalExecution_events (s : CommandHistory) (n : ICommand) (er : CommandResult) :
    (normalExecution s n er).2 =
      [Event.invokedExecute n.id,
       (match er with
        | CommandResult.ADD => Event.added n.description
        | CommandResult.CLEAR => Event.clearedInfo n.description
        | CommandResult.NOOP => Event.noopInfo n.description)] := by
  cases er <;> simp only [normalExecution] <;> split <;> rfl

/-- Calling `undo` on a busy engine throws immediately. -/
theorem undo_busy_eq (s : CommandHistory) (levels : Int) (h : s.busy = true) :
    s.undo levels = Except.error ("Cannot undo during another operation.") := by
  simp [CommandHistory.undo, h]

/-- Calling `redo` on a busy engine throws immediately. -/
theorem redo_busy_eq (s : CommandHistory) (levels : Int) (h : s.busy = true) :
    s.redo levels = Except.error ("Cannot redo during another operation.") := by
  simp [CommandHistory.redo, h]

/-- Calling `pop` on a busy engine throws immediately. -/
theorem pop_busy_eq (s : CommandHistory) (h : s.busy = true) :
    s.pop = Except.error ("Cannot alter command history state during an operation.") := by
  simp [CommandHistory.pop, h]

/-- Calling `clear` on a busy engine throws immediately. -/
theorem clear_busy_eq (s : CommandHistory) (h : s.busy = true) :
    s.clear = Except.error ("Cannot alter command history state during an operation.") := by
  simp [CommandHistory.clear, h]

/-- Normal form of `undo` on a non-busy engine. -/
theorem undo_eq_of_not_busy (s : CommandHistory) (levels : Int) (h : s.busy = false) :
    s.undo levels = Except.ok
      ({ s with undoCommands := (undoLoop levels s.undoCommands s.redoCommands).1,
                redoCommands := (undoLoop levels s.undoCommands s.redoCommands).2.1,
                can_coalesce := false, busy := false },
       (undoLoop levels s.undoCommands s.redoCommands).2.2 ++ [Event.cleanupCalled]) := by
  rcases hu : undoLoop levels s.undoCommands s.redoCommands with ⟨us, rs, evs⟩
  simp [CommandHistory.undo, h, hu]

/-- Normal form of `redo` on a non-busy engine. -/
theorem redo_eq_of_not_busy (s : CommandHistory) (levels : Int) (h : s.busy = false) :
    s.redo levels = Except.ok
      ({ s with undoCommands := (redoLoop levels s.redoCommands s.undoCommands).2.1,
                redoCommands := (redoLoop levels s.redoCommands s.undoCommands).1,
                can_coalesce := false, busy := false },
       (redoLoop levels s.redoCommands s.undoCommands).2.2 ++ [Event.cleanupCalled]) := by
  rcases hu : redoLoop levels s.redoCommands s.undoCommands with ⟨rs, us, evs⟩
  simp [CommandHistory.redo, h, hu]

/-- Normal form of `pop` on a non-busy engine. -/
theorem pop_eq_of_not_busy (s : CommandHistory) (h : s.busy = false) :
    s.pop = Except.ok { s with undoCommands := s.undoCommands.tail } := by
  simp [CommandHistory.pop, h]

/-- Normal form of `clear` on a non-busy engine. -/
theorem clear_eq_of_not_busy (s : CommandHistory) (h : s.busy = false) :
    s.clear = Except.ok { s with undoCommands := [], redoCommands := [] } := by
  simp [CommandHistory.clear, h]

/-- A successful `undo` always leaves the coalescence flag cleared. -/
theorem undo_ok_coalesce (s : CommandHistory) (levels : Int) (s2 : CommandHistory)
    (evs : List Event) (h : s.undo levels = Except.ok (s2, evs)) :
    s2.can_coalesce = false := by
  cases hb : s.busy with
  | true => rw [undo_busy_eq s levels hb] at h; exact absurd h (by simp)
  | false =>
    rw [undo_eq_of_not_busy s levels hb] at h
    simp only [Except.ok.injEq, Prod.mk.injEq] at h
    obtain ⟨h1, -⟩ := h
    rw [← h1]

/-- A successful `redo` always leaves the coalescence flag cleared. -/
theorem redo_ok_coalesce (s : CommandHistory) (levels : Int) (s2 : CommandHistory)
    (evs : List Event) (h : s.redo levels = Except.ok (s2, evs)) :
    s2.can_coalesce = false := by
  cases hb : s.busy with
  | true => rw [redo_busy_eq s levels hb] at h; exact absurd h (by simp)
  | false =>
    rw [redo_eq_of_not_busy s levels hb] at h
    simp only [Except.ok.injEq, Prod.mk.injEq] at h
    obtain ⟨h1, -⟩ := h
    rw [← h1]

/-- What a successful `execute` can do to `redoCommands` and `can_coalesce`:
either the redo stack comes out empty, or the redo stack is preserved and
the flag can only stay set if it was set before. -/
theorem execute_ok_coalesce_inv (s : CommandHistory) (ncmd : ICommand)
    (cr : CoalescenceResult) (er : CommandResult)
    (s2 : CommandHistory) (evs : List Event)
    (h : s.execute ncmd cr er = Except.ok (s2, evs)) :
    s2.redoCommands = [] ∨
      (s2.redoCommands = s.redoCommands ∧
        (s2.can_coalesce = true → s.can_coalesce = true)) := by
  cases hb : s.busy with
  | true => rw [execute_busy_eq s ncmd cr er hb] at h; exact absurd h (by simp)
  | false =>
    rw [execute_eq_of_not_busy s ncmd cr er hb] at h
    have norm : ∀ hn : normalExecution { s with busy := true } ncmd er = (s2, evs),
        s2.redoCommands = [] ∨
          (s2.redoCommands = s.redoCommands ∧
            (s2.can_coalesce = true → s.can_coalesce = true)) := by
      intro hn
      have h1 : (normalExecution { s with busy := true } ncmd er).1 = s2 :=
        congrArg Prod.fst hn
      subst h1
      rw [normalExecution_redo, normalExecution_coalesce]
      cases er with
      | ADD => left; rfl
      | CLEAR => left; rfl
      | NOOP =>
        right
        refine ⟨rfl, ?_⟩
        intro hc
        by_cases hw : 0 < ({ s with busy := true } : CommandHistory).coalescenceWindow
        · rw [if_pos hw] at hc; exact hc
        · rw [if_neg hw] at hc; exact absurd hc (by simp)
    split at h
    · split at h
      · exact norm (by simpa using h)
      · simp only [Except.ok.injEq, Prod.mk.injEq] at h
        obtain ⟨h1, -⟩ := h
        subst h1
        exact Or.inr ⟨rfl, fun hc => hc⟩
      · simp only [Except.ok.injEq, Prod.mk.injEq] at h
        obtain ⟨h1, -⟩ := h
        subst h1
        exact Or.inr ⟨rfl, fun hc => hc⟩
    · exact norm (by simpa using h)

/-- Sample command with the `coalesce` capability. -/
def cmdA : ICommand :=
  { id := 0, isNoopB := false, hasCoalesce := true, description := ("A") }

/-- Sample command without the `coalesce` capability. -/
def cmdB : ICommand :=
  { id := 1, isNoopB := false, hasCoalesce := false, description := ("B") }

/-- Sample command whose no-op predicate currently holds. -/
def cmdN : ICommand :=
  { id := 2, isNoopB := true, hasCoalesce := false, description := ("N") }

/-- Claim C1: the spec requires the busy flag to be released on every exit
path of `execute`/`undo`/`redo` (success or failure), explicitly to avoid
permanently deadlocking the engine.  The code violates this: evaluating
`execute` at a state with a coalescible incumbent whose `coalesce` answers
COALESCED shows the early `return` leaves `_busy = true`, after which every
further `undo`/`redo`/`execute`/`pop`/`clear` call throws forever. -/
theorem c1_busy_not_released :
    ∃ s2 evs,
      ({ initHistory 3000 with undoCommands := [cmdA] } : CommandHistory).execute
          cmdB CoalescenceResult.COALESCED CommandResult.ADD = Except.ok (s2, evs) ∧
      s2.busy = true ∧
      s2.undo 1 = Except.error ("Cannot undo during another operation.") ∧
      s2.redo 1 = Except.error ("Cannot redo during another operation.") ∧
      s2.execute cmdB CoalescenceResult.IMMISCIBLE CommandResult.ADD =
        Except.error ("Cannot execute command during another operation.") ∧
      s2.pop = Except.error ("Cannot alter command history state during an operation.") ∧
      s2.clear = Except.error ("Cannot alter command history state during an operation.") := by
  refine ⟨{ initHistory 3000 with undoCommands := [cmdA], busy := true },
          [Event.coalesced cmdB.description], ?_, rfl, ?_, ?_, ?_, ?_, ?_⟩ <;> rfl

/-- Claim C2, counterexample: a freshly constructed engine does NOT start
with the coalescence flag in the BARRIERED (false) state — the field
initialiser sets `can_coalesce = true`. -/
theorem c2_counterexample : (initHistory 3000).can_coalesce = true := rfl

/-- Claim C2, amended: a freshly constructed engine starts with the
coalescence flag ELIGIBLE (`can_coalesce = true`); after that, the only
operation that sets the flag to true is an `execute` whose command resolves
to ADD — `undo`/`redo`/`coalescenceBarrier` clear it and `pop`/`clear`
leave it unchanged. -/
theorem c2_flag_set_only_by_add :
    (∀ w, (initHistory w).can_coalesce = true) ∧
    (∀ s levels s2 evs, CommandHistory.undo s levels = Except.ok (s2, evs) →
      s2.can_coalesce = false) ∧
    (∀ s levels s2 evs, CommandHistory.redo s levels = Except.ok (s2, evs) →
      s2.can_coalesce = false) ∧
    (∀ s s2, CommandHistory.pop s = Except.ok s2 → s2.can_coalesce = s.can_coalesce) ∧
    (∀ s s2, CommandHistory.clear s = Except.ok s2 → s2.can_coalesce = s.can_coalesce) ∧
    (∀ s, (CommandHistory.coalescenceBarrier s).can_coalesce = false) ∧
    (∀ s ncmd cr er s2 evs, CommandHistory.execute s ncmd cr er = Except.ok (s2, evs) →
      s.can_coalesce = false → s2.can_coalesce = true → er = CommandResult.ADD) := by
  refine ⟨fun w => rfl, undo_ok_coalesce, redo_ok_coalesce, ?_, ?_, fun s => rfl, ?_⟩
  · intro s s2 h
    cases hb : s.busy with
    | true => rw [pop_busy_eq s hb] at h; exact absurd h (by simp)
    | false =>
      rw [pop_eq_of_not_busy s hb] at h
      simp only [Except.ok.injEq] at h
      rw [← h]
  · intro s s2 h
    cases hb : s.busy with
    | true => rw [clear_busy_eq s hb] at h; exact absurd h (by simp)
    | false =>
      rw [clear_eq_of_not_busy s hb] at h
      simp only [Except.ok.injEq] at h
      rw [← h]
  · intro s ncmd cr er s2 evs h hcc hc2
    cases hb : s.busy with
    | true => rw [execute_busy_eq s ncmd cr er hb] at h; exact absurd h (by simp)
    | false =>
      rw [execute_eq_of_not_busy s ncmd cr er hb] at h
      have hcons : consultsCoalesce s = false := by
        simp [consultsCoalesce, hcc]
      rw [hcons] at h
      simp only [Bool.false_eq_true, if_false, Except.ok.injEq] at h
      have h1 : (normalExecution { s with busy := true } ncmd er).1 = s2 :=
        congrArg Prod.fst h
      rw [← h1, normalExecution_coalesce] at hc2
      cases er with
      | ADD => rfl
      | CLEAR => simp at hc2
      | NOOP =>
        rcases Decidable.em (0 < ({ s with busy := true } : CommandHistory).coalescenceWindow) with hw | hw
        · rw [if_pos hw] at hc2
          exact absurd hc2 (by simp [hcc])
        · rw [if_neg hw] at hc2
          exact absurd hc2 (by simp)

/-- Claim C2, witness instance: undoing on a fresh engine leaves the flag
cleared, as the amended claim's undo clause states. -/
theorem c2_witness :
    ({ initHistory 3000 with can_coalesce := false } : CommandHistory).can_coalesce = false :=
  c2_flag_set_only_by_add.2.1 (initHistory 3000) 1
    { initHistory 3000 with can_coalesce := false } [Event.cleanupCalled] (by rfl)

/-- Claim C3: while the engine is busy, `execute`, `undo`, `redo`, `pop`
and `clear` all fail synchronously with the corresponding
concurrency-violation error; in this embedding an error result carries no
new state (every `throw` in the source precedes any mutation), so both
stacks, the counts, and the coalescence flag are exactly as before. -/
theorem c3_busy_rejects_all (s : CommandHistory) (ncmd : ICommand)
    (cr : CoalescenceResult) (er : CommandResult) (levels : Int)
    (h : s.busy = true) :
    s.execute ncmd cr er =
      Except.error ("Cannot execute command during another operation.") ∧
    s.undo levels = Except.error ("Cannot undo during another operation.") ∧
    s.redo levels = Except.error ("Cannot redo during another operation.") ∧
    s.pop = Except.error ("Cannot alter command history state during an operation.") ∧
    s.clear = Except.error ("Cannot alter command history state during an operation.") :=
  ⟨execute_busy_eq s ncmd cr er h, undo_busy_eq s levels h, redo_busy_eq s levels h,
   pop_busy_eq s h, clear_busy_eq s h⟩

/-- Claim C3, witness instance at a concrete busy engine. -/
theorem c3_witness :
    ({ initHistory 3000 with busy := true } : CommandHistory).execute cmdB
        CoalescenceResult.IMMISCIBLE CommandResult.ADD =
      Except.error ("Cannot execute command during another operation.") ∧
    ({ initHistory 3000 with busy := true } : CommandHistory).undo 1 =
      Except.error ("Cannot undo during another operation.") ∧
    ({ initHistory 3000 with busy := true } : CommandHistory).redo 1 =
      Except.error ("Cannot redo during another operation.") ∧
    ({ initHistory 3000 with busy := true } : CommandHistory).pop =
      Except.error ("Cannot alter command history state during an operation.") ∧
    ({ initHistory 3000 with busy := true } : CommandHistory).clear =
      Except.error ("Cannot alter command history state during an operation.") :=
  c3_busy_rejects_all { initHistory 3000 with busy := true } cmdB
    CoalescenceResult.IMMISCIBLE CommandResult.ADD 1 rfl

/-- Claim C4, counterexample: with a currently-no-op command on top of the
undo stack, `undo()` discards it silently, so the immediately following
`redo()` cannot restore it — the round-trip law fails for that state of the
no-op predicates (here the commands' reverse/reapply are exact inverses
vacuously: neither is ever invoked). -/
theorem c4_counterexample :
    ∃ s1 e1 s2 e2,
      ({ initHistory 3000 with undoCommands := [cmdN] } : CommandHistory).undo 1 =
        Except.ok (s1, e1) ∧
      s1.redo 1 = Except.ok (s2, e2) ∧
      s2.undoCommands ≠
        ({ initHistory 3000 with undoCommands := [cmdN] } : CommandHistory).undoCommands := by
  refine ⟨{ initHistory 3000 with can_coalesce := false }, [Event.cleanupCalled],
          { initHistory 3000 with can_coalesce := false }, [Event.cleanupCalled],
          ?_, ?_, ?_⟩
  · rfl
  · rfl
  · decide

/-- Claim C4, amended: an `undo()` followed immediately by `redo()` restores
the undo and redo stacks to their pre-undo state provided the popped top of
the undo stack is not currently a no-op — precisely, when either both
stacks are empty, or the undo stack's top command's no-op predicate is
false.  (The counterexample forces the first proviso: a no-op top is
dropped, not restored; and with an empty undo stack but non-empty redo
stack, `redo()` would reapply a command the `undo()` never popped.) -/
theorem c4_undo_redo_roundtrip (s : CommandHistory) (hb : s.busy = false)
    (h2 : (s.undoCommands = [] ∧ s.redoCommands = []) ∨
          (∃ c cs, s.undoCommands = c :: cs ∧ c.isNoopB = false)) :
    ∃ s1 e1 s2 e2,
      s.undo 1 = Except.ok (s1, e1) ∧ s1.redo 1 = Except.ok (s2, e2) ∧
      s2.undoCommands = s.undoCommands ∧ s2.redoCommands = s.redoCommands := by
  obtain ⟨us, rs, cc, ti, w, b⟩ := s
  simp only at hb h2
  subst hb
  rcases h2 with ⟨hu, hr⟩ | ⟨c, cs, hu, hn⟩
  · subst hu
    subst hr
    exact ⟨⟨[], [], false, ti, w, false⟩, [Event.cleanupCalled],
           ⟨[], [], false, ti, w, false⟩, [Event.cleanupCalled], rfl, rfl, rfl, rfl⟩
  · subst hu
    have hl1 : undoLoop 1 (c :: cs) rs =
        (cs, c :: rs, [Event.invokedUndo c.id, Event.undidInfo c.description]) := by
      simp [undoLoop, hn, undoLoop_nonpos]
    have hl2 : redoLoop 1 (c :: rs) cs =
        (rs, c :: cs, [Event.invokedRedo c.id, Event.redidInfo c.description]) := by
      simp [redoLoop, redoLoop_nonpos]
    refine ⟨⟨cs, c :: rs, false, ti, w, false⟩,
            [Event.invokedUndo c.id, Event.undidInfo c.description, Event.cleanupCalled],
            ⟨c :: cs, rs, false, ti, w, false⟩,
            [Event.invokedRedo c.id, Event.redidInfo c.description, Event.cleanupCalled],
            ?_, ?_, rfl, rfl⟩
    · simp [CommandHistory.undo, hl1]
    · simp [CommandHistory.redo, hl2]

/-- Claim C4, witness instance: round trip on a stack holding one
non-no-op command. -/
theorem c4_witness :
    ∃ s1 e1 s2 e2,
      ({ initHistory 3000 with undoCommands := [cmdB] } : CommandHistory).undo 1 =
        Except.ok (s1, e1) ∧
      s1.redo 1 = Except.ok (s2, e2) ∧
      s2.undoCommands =
        ({ initHistory 3000 with undoCommands := [cmdB] } : CommandHistory).undoCommands ∧
      s2.redoCommands =
        ({ initHistory 3000 with undoCommands := [cmdB] } : CommandHistory).redoCommands :=
  c4_undo_redo_roundtrip { initHistory 3000 with undoCommands := [cmdB] } rfl
    (Or.inr ⟨cmdB, [], rfl, rfl⟩)

/-- Claim C5: in the `undo(levels)` loop, a popped command whose no-op
predicate currently holds is silently discarded — the loop's result is as
if it had never been on the stack (so its reverse is not invoked, it does
not enter the redo stack, and the remaining-levels counter is not
decremented), while a popped non-no-op command has its reverse invoked, is
pushed onto the redo stack, and consumes one level; the `redo(levels)` loop
performs no such skip: it reapplies and transfers the popped entry
unconditionally, whatever its no-op predicate says. -/
theorem c5_undo_skips_noops_redo_does_not (c : ICommand) (us rs : List ICommand)
    (levels : Int) (h : 0 < levels) :
    (c.isNoopB = true → undoLoop levels (c :: us) rs = undoLoop levels us rs) ∧
    (c.isNoopB = false → undoLoop levels (c :: us) rs =
      ((undoLoop (levels - 1) us (c :: rs)).1,
       (undoLoop (levels - 1) us (c :: rs)).2.1,
       Event.invokedUndo c.id :: Event.undidInfo c.description ::
         (undoLoop (levels - 1) us (c :: rs)).2.2)) ∧
    (redoLoop levels (c :: rs) us =
      ((redoLoop (levels - 1) rs (c :: us)).1,
       (redoLoop (levels - 1) rs (c :: us)).2.1,
       Event.invokedRedo c.id :: Event.redidInfo c.description ::
         (redoLoop (levels - 1) rs (c :: us)).2.2)) := by
  have hl : ¬ levels ≤ 0 := by omega
  refine ⟨fun hn => ?_, fun hn => ?_, ?_⟩
  · simp [undoLoop, hl, hn]
  · simp [undoLoop, hl, hn]
  · simp [redoLoop, hl]

/-- Claim C5, witness instance: a currently-no-op top is skipped by the
undo loop. -/
theorem c5_witness : undoLoop 1 [cmdN] [] = undoLoop 1 [] [] :=
  (c5_undo_skips_noops_redo_does_not cmdN [] [] 1 (by decide)).1 rfl

/-- On a non-busy engine whose coalescence phase falls through (either it
does not consult a `coalesce` capability, or that capability answers
IMMISCIBLE), `execute` is exactly `normalExecution` of the busy-marked
state. -/
theorem execute_falls_through (s : CommandHistory) (ncmd : ICommand)
    (cr : CoalescenceResult) (er : CommandResult) (hb : s.busy = false)
    (hn : consultsCoalesce s = false ∨ cr = CoalescenceResult.IMMISCIBLE) :
    s.execute ncmd cr er =
      Except.ok (normalExecution { s with busy := true } ncmd er) := by
  rw [execute_eq_of_not_busy s ncmd cr er hb]
  rcases hn with hn | hn
  · rw [hn]
    simp
  · subst hn
    rcases Decidable.em (consultsCoalesce s = true) with hc | hc <;> simp [hc]

/-- Claim C6: for every engine state (hence after any prior sequence of
undos) and every `execute` that reaches the normal-execution phase, an ADD
result pushes the new command on top of the undo stack and empties the redo
stack entirely, while a NOOP result leaves both stacks exactly as they
were (in particular the redo stack is not wiped). -/
theorem c6_add_wipes_redo_noop_does_not (s : CommandHistory) (ncmd : ICommand)
    (cr : CoalescenceResult) (hb : s.busy = false)
    (hn : consultsCoalesce s = false ∨ cr = CoalescenceResult.IMMISCIBLE) :
    (∃ s2 evs, s.execute ncmd cr CommandResult.ADD = Except.ok (s2, evs) ∧
       s2.undoCommands = ncmd :: s.undoCommands ∧ s2.redoCommands = []) ∧
    (∃ s2 evs, s.execute ncmd cr CommandResult.NOOP = Except.ok (s2, evs) ∧
       s2.undoCommands = s.undoCommands ∧ s2.redoCommands = s.redoCommands) := by
  constructor
  · exact ⟨(normalExecution { s with busy := true } ncmd CommandResult.ADD).1,
           (normalExecution { s with busy := true } ncmd CommandResult.ADD).2,
           execute_falls_through s ncmd cr CommandResult.ADD hb hn,
           by rw [normalExecution_undo], by rw [normalExecution_redo]⟩
  · exact ⟨(normalExecution { s with busy := true } ncmd CommandResult.NOOP).1,
           (normalExecution { s with busy := true } ncmd CommandResult.NOOP).2,
           execute_falls_through s ncmd cr CommandResult.NOOP hb hn,
           by rw [normalExecution_undo], by rw [normalExecution_redo]⟩

/-- Claim C6, witness instance: on an engine with one undone command in the
redo stack, an ADD execution pushes the new command and wipes the redo
stack; a NOOP execution leaves both stacks alone. -/
theorem c6_witness :
    (∃ s2 evs,
      ({ initHistory 3000 with redoCommands := [cmdB], can_coalesce := false } :
          CommandHistory).execute cmdA CoalescenceResult.IMMISCIBLE
          CommandResult.ADD = Except.ok (s2, evs) ∧
      s2.undoCommands = cmdA ::
        ({ initHistory 3000 with redoCommands := [cmdB], can_coalesce := false } :
          CommandHistory).undoCommands ∧
      s2.redoCommands = []) ∧
    (∃ s2 evs,
      ({ initHistory 3000 with redoCommands := [cmdB], can_coalesce := false } :
          CommandHistory).execute cmdA CoalescenceResult.IMMISCIBLE
          CommandResult.NOOP = Except.ok (s2, evs) ∧
      s2.undoCommands =
        ({ initHistory 3000 with redoCommands := [cmdB], can_coalesce := false } :
          CommandHistory).undoCommands ∧
      s2.redoCommands =
        ({ initHistory 3000 with redoCommands := [cmdB], can_coalesce := false } :
          CommandHistory).redoCommands) :=
  c6_add_wipes_redo_noop_does_not
    { initHistory 3000 with redoCommands := [cmdB], can_coalesce := false }
    cmdA CoalescenceResult.IMMISCIBLE rfl (Or.inl rfl)

/-- Claim C7: with coalescence eligible, a non-empty undo stack, and an
incumbent with a `coalesce` capability answering UNDONE, `execute` returns
immediately: the incumbent is not pushed back (the undo stack is exactly
the remainder `rest`), the new command is on neither stack, the redo stack
is untouched, and the event trace — a single "dropped" message with no
`invokedExecute` entry — shows the new command's first-time-apply is never
invoked (the result holds for every value of the apply oracle `er`). -/
theorem c7_undone_drops_both (s : CommandHistory) (ncmd lcmd : ICommand)
    (rest : List ICommand) (er : CommandResult) (hb : s.busy = false)
    (hcc : s.can_coalesce = true) (hus : s.undoCommands = lcmd :: rest)
    (hcap : lcmd.hasCoalesce = true) :
    s.execute ncmd CoalescenceResult.UNDONE er =
      Except.ok ({ s with busy := true, undoCommands := rest },
                 [Event.dropped ncmd.description]) := by
  rw [execute_eq_of_not_busy s ncmd CoalescenceResult.UNDONE er hb]
  have hc : consultsCoalesce s = true := by
    simp [consultsCoalesce, hcc, hus, hcap]
  rw [hc]
  simp [hus]

/-- Claim C7, witness instance. -/
theorem c7_witness :
    ({ initHistory 3000 with undoCommands := [cmdA] } : CommandHistory).execute
        cmdB CoalescenceResult.UNDONE CommandResult.ADD =
      Except.ok
        ({ { initHistory 3000 with undoCommands := [cmdA] } with
            busy := true, undoCommands := [] },
         [Event.dropped cmdB.description]) :=
  c7_undone_drops_both { initHistory 3000 with undoCommands := [cmdA] }
    cmdB cmdA [] CommandResult.ADD rfl rfl rfl rfl

/-- Claim C8, counterexample: with a non-positive coalescence window the
claim fails — on a fresh engine (`can_coalesce = true`, window 0) an
execute resolving to NOOP leaves the stacks alone but the epilogue sets
`can_coalesce = false`, so the flag does NOT have the same value after the
call. -/
theorem c8_counterexample :
    ∃ s2 evs,
      (initHistory 0).execute cmdB CoalescenceResult.IMMISCIBLE
          CommandResult.NOOP = Except.ok (s2, evs) ∧
      (initHistory 0).can_coalesce = true ∧ s2.can_coalesce = false := by
  refine ⟨{ initHistory 0 with can_coalesce := false },
          [Event.invokedExecute cmdB.id, Event.noopInfo cmdB.description],
          ?_, rfl, rfl⟩
  rfl

/-- Claim C8, amended: an `execute` whose command's first-time-apply
resolves to NOOP (reached through a fall-through coalescence phase) leaves
both stacks untouched for every configured window; the NOOP branch itself
leaves the flag as it was, and the flag still has its old value when the
call completes whenever the window is positive — but with a window ≤ 0 the
shared timer epilogue barriers the flag (`can_coalesce = false`) before
returning. -/
theorem c8_noop_frame (s : CommandHistory) (ncmd : ICommand)
    (cr : CoalescenceResult) (hb : s.busy = false)
    (hn : consultsCoalesce s = false ∨ cr = CoalescenceResult.IMMISCIBLE) :
    ∃ s2 evs, s.execute ncmd cr CommandResult.NOOP = Except.ok (s2, evs) ∧
      s2.undoCommands = s.undoCommands ∧ s2.redoCommands = s.redoCommands ∧
      (0 < s.coalescenceWindow → s2.can_coalesce = s.can_coalesce) ∧
      (s.coalescenceWindow ≤ 0 → s2.can_coalesce = false) := by
  refine ⟨(normalExecution { s with busy := true } ncmd CommandResult.NOOP).1,
          (normalExecution { s with busy := true } ncmd CommandResult.NOOP).2,
          execute_falls_through s ncmd cr CommandResult.NOOP hb hn,
          by rw [normalExecution_undo], by rw [normalExecution_redo], ?_, ?_⟩
  · intro hw
    rw [normalExecution_coalesce]
    simp only
    rw [if_pos hw]
  · intro hw
    rw [normalExecution_coalesce]
    simp only
    rw [if_neg (by omega)]

/-- Claim C8, witness instance: NOOP execution on a fresh engine with the
default (positive) window changes neither stacks nor flag. -/
theorem c8_witness :
    ∃ s2 evs, (initHistory 3000).execute cmdB CoalescenceResult.IMMISCIBLE
        CommandResult.NOOP = Except.ok (s2, evs) ∧
      s2.undoCommands = (initHistory 3000).undoCommands ∧
      s2.redoCommands = (initHistory 3000).redoCommands ∧
      (0 < (initHistory 3000).coalescenceWindow →
        s2.can_coalesce = (initHistory 3000).can_coalesce) ∧
      ((initHistory 3000).coalescenceWindow ≤ 0 → s2.can_coalesce = false) :=
  c8_noop_frame (initHistory 3000) cmdB CoalescenceResult.IMMISCIBLE rfl (Or.inl rfl)

/-- The loop of `undoF` with a never-rejecting oracle is the plain
`undoLoop` (with a `false` failure flag appended): the completed-run model
is the fault-free projection of the rejection-aware one. -/
theorem undoLoopF_no_reject (levels : Int) (us rs : List ICommand) :
    undoLoopF (fun _ => false) levels us rs =
      ((undoLoop levels us rs).1, (undoLoop levels us rs).2.1,
       (undoLoop levels us rs).2.2, false) := by
  induction us generalizing levels rs with
  | nil => rfl
  | cons c us ih =>
    by_cases hl : levels ≤ 0
    · simp [undoLoopF, undoLoop, hl]
    · by_cases hn : c.isNoopB
      · simp [undoLoopF, undoLoop, hl, hn, ih]
      · rcases hu : undoLoop (levels - 1) us (c :: rs) with ⟨us2, rs2, evs2⟩
        simp [undoLoopF, undoLoop, hl, hn, ih, hu]

/-- The loop of `redoF` with a never-rejecting oracle is the plain
`redoLoop`. -/
theorem redoLoopF_no_reject (levels : Int) (rs us : List ICommand) :
    redoLoopF (fun _ => false) levels rs us =
      ((redoLoop levels rs us).1, (redoLoop levels rs us).2.1,
       (redoLoop levels rs us).2.2, false) := by
  induction rs generalizing levels us with
  | nil => rfl
  | cons c rs ih =>
    by_cases hl : levels ≤ 0
    · simp [redoLoopF, redoLoop, hl]
    · rcases hu : redoLoop (levels - 1) rs (c :: us) with ⟨rs2, us2, evs2⟩
      simp [redoLoopF, redoLoop, hl, ih, hu]

/-- With a never-rejecting oracle, `undoF` is exactly `undo`. -/
theorem undoF_no_reject (s : CommandHistory) (levels : Int) :
    s.undoF levels (fun _ => false) =
      Except.map (fun p => (p.1, p.2, false)) (s.undo levels) := by
  cases hb : s.busy with
  | true => simp [CommandHistory.undoF, CommandHistory.undo, hb, Except.map]
  | false =>
    rcases hu : undoLoop levels s.undoCommands s.redoCommands with ⟨us, rs, evs⟩
    simp [CommandHistory.undoF, CommandHistory.undo, hb, hu,
          undoLoopF_no_reject, Except.map]

/-- With a never-rejecting oracle, `redoF` is exactly `redo`. -/
theorem redoF_no_reject (s : CommandHistory) (levels : Int) :
    s.redoF levels (fun _ => false) =
      Except.map (fun p => (p.1, p.2, false)) (s.redo levels) := by
  cases hb : s.busy with
  | true => simp [CommandHistory.redoF, CommandHistory.redo, hb, Except.map]
  | false =>
    rcases hu : redoLoop levels s.redoCommands s.undoCommands with ⟨rs, us, evs⟩
    simp [CommandHistory.redoF, CommandHistory.redo, hb, hu,
          redoLoopF_no_reject, Except.map]

/-- Normal form of `executeF` on a non-busy engine, mirroring
`execute_eq_of_not_busy`. -/
theorem executeF_eq_of_not_busy (s : CommandHistory) (ncmd : ICommand)
    (cr : CoalescenceResult) (er : CommandResult) (applyRejects : Bool)
    (h : s.busy = false) :
    s.executeF ncmd cr er applyRejects =
      (if consultsCoalesce s then
        match cr with
        | CoalescenceResult.IMMISCIBLE =>
            Except.ok (normalExecutionF { s with busy := true } ncmd er applyRejects)
        | CoalescenceResult.COALESCED =>
            Except.ok ({ s with busy := true },
                       [Event.coalesced ncmd.description], false)
        | CoalescenceResult.UNDONE =>
            Except.ok
              ({ s with busy := true, undoCommands := s.undoCommands.tail },
               [Event.dropped ncmd.description], false)
       else Except.ok (normalExecutionF { s with busy := true } ncmd er applyRejects)) := by
  obtain ⟨us, rs, cc, ti, w, b⟩ := s
  simp only at h
  subst h
  cases cc with
  | false => cases us <;> simp [CommandHistory.executeF, consultsCoalesce]
  | true =>
    cases us with
    | nil => simp [CommandHistory.executeF, consultsCoalesce]
    | cons lcmd rest =>
      obtain ⟨cid, cnoop, ccoal, cdesc⟩ := lcmd
      cases ccoal <;> cases cr <;>
        simp [CommandHistory.executeF, consultsCoalesce]

/-- With the apply oracle resolving, `executeF` is exactly `execute`. -/
theorem executeF_no_reject (s : CommandHistory) (ncmd : ICommand)
    (cr : CoalescenceResult) (er : CommandResult) :
    s.executeF ncmd cr er false =
      Except.map (fun p => (p.1, p.2, false)) (s.execute ncmd cr er) := by
  cases hb : s.busy with
  | true => simp [CommandHistory.executeF, CommandHistory.execute, hb, Except.map]
  | false =>
    rw [executeF_eq_of_not_busy s ncmd cr er false hb,
        execute_eq_of_not_busy s ncmd cr er hb]
    rcases Decidable.em (consultsCoalesce s = true) with hcon | hcon
    · cases cr <;> simp [hcon, normalExecutionF, Except.map]
    · have hcon2 : consultsCoalesce s = false := by
        revert hcon
        cases consultsCoalesce s <;> simp
      simp [hcon2, normalExecutionF, Except.map]

/-- A successful-or-failing `undoF` call requires a non-busy engine, and
ends either still busy (the rejection path: `_busy` is never reset) or
with the coalescence flag cleared (the completed path). -/
theorem undoF_ok_inv (s : CommandHistory) (levels : Int)
    (rejects : ICommand → Bool) (s2 : CommandHistory) (evs : List Event)
    (failed : Bool)
    (h : s.undoF levels rejects = Except.ok (s2, evs, failed)) :
    s.busy = false ∧ (s2.busy = true ∨ s2.can_coalesce = false) := by
  cases hb : s.busy with
  | true =>
    rw [show s.undoF levels rejects =
          Except.error ("Cannot undo during another operation.") by
        simp [CommandHistory.undoF, hb]] at h
    exact absurd h (by simp)
  | false =>
    refine ⟨rfl, ?_⟩
    rcases hu : undoLoopF rejects levels s.undoCommands s.redoCommands
      with ⟨us, rs, evs0, f0⟩
    simp only [CommandHistory.undoF, hb, Bool.false_eq_true, if_false, hu] at h
    cases f0 with
    | true =>
      simp only [if_true, Except.ok.injEq, Prod.mk.injEq] at h
      obtain ⟨h1, -⟩ := h
      rw [← h1]
      exact Or.inl rfl
    | false =>
      simp only [Bool.false_eq_true, if_false, Except.ok.injEq, Prod.mk.injEq] at h
      obtain ⟨h1, -⟩ := h
      rw [← h1]
      exact Or.inr rfl

/-- A successful-or-failing `redoF` call requires a non-busy engine, and
ends either still busy (rejection) or with the flag cleared (completion). -/
theorem redoF_ok_inv (s : CommandHistory) (levels : Int)
    (rejects : ICommand → Bool) (s2 : CommandHistory) (evs : List Event)
    (failed : Bool)
    (h : s.redoF levels rejects = Except.ok (s2, evs, failed)) :
    s.busy = false ∧ (s2.busy = true ∨ s2.can_coalesce = false) := by
  cases hb : s.busy with
  | true =>
    rw [show s.redoF levels rejects =
          Except.error ("Cannot redo during another operation.") by
        simp [CommandHistory.redoF, hb]] at h
    exact absurd h (by simp)
  | false =>
    refine ⟨rfl, ?_⟩
    rcases hu : redoLoopF rejects levels s.redoCommands s.undoCommands
      with ⟨rs, us, evs0, f0⟩
    simp only [CommandHistory.redoF, hb, Bool.false_eq_true, if_false, hu] at h
    cases f0 with
    | true =>
      simp only [if_true, Except.ok.injEq, Prod.mk.injEq] at h
      obtain ⟨h1, -⟩ := h
      rw [← h1]
      exact Or.inl rfl
    | false =>
      simp only [Bool.false_eq_true, if_false, Except.ok.injEq, Prod.mk.injEq] at h
      obtain ⟨h1, -⟩ := h
      rw [← h1]
      exact Or.inr rfl

/-- What an `executeF` call can do to `redoCommands`, `can_coalesce` and
`busy`: the redo stack comes out empty, or the call ends busy (the
COALESCED/UNDONE early returns and the apply-rejection path), or the redo
stack is preserved and the flag can only stay set if it was set before. -/
theorem executeF_ok_inv (s : CommandHistory) (ncmd : ICommand)
    (cr : CoalescenceResult) (er : CommandResult) (applyRejects : Bool)
    (s2 : CommandHistory) (evs : List Event) (failed : Bool)
    (h : s.executeF ncmd cr er applyRejects = Except.ok (s2, evs, failed)) :
    s.busy = false ∧
      (s2.redoCommands = [] ∨ s2.busy = true ∨
        (s2.redoCommands = s.redoCommands ∧
          (s2.can_coalesce = true → s.can_coalesce = true))) := by
  cases hb : s.busy with
  | true =>
    rw [show s.executeF ncmd cr er applyRejects =
          Except.error ("Cannot execute command during another operation.") by
        simp [CommandHistory.executeF, hb]] at h
    exact absurd h (by simp)
  | false =>
    refine ⟨rfl, ?_⟩
    rw [executeF_eq_of_not_busy s ncmd cr er applyRejects hb] at h
    have norm : ∀ hn : normalExecutionF { s with busy := true } ncmd er applyRejects
          = (s2, evs, failed),
        s2.redoCommands = [] ∨ s2.busy = true ∨
          (s2.redoCommands = s.redoCommands ∧
            (s2.can_coalesce = true → s.can_coalesce = true)) := by
      intro hn
      cases hf : applyRejects with
      | true =>
        rw [hf] at hn
        simp only [normalExecutionF, if_true, Prod.mk.injEq] at hn
        obtain ⟨h1, -⟩ := hn
        rw [← h1]
        exact Or.inr (Or.inl rfl)
      | false =>
        rw [hf] at hn
        simp only [normalExecutionF, Bool.false_eq_true, if_false,
                   Prod.mk.injEq] at hn
        obtain ⟨h1, -⟩ := hn
        rw [← h1, normalExecution_redo, normalExecution_coalesce]
        cases er with
        | ADD => exact Or.inl rfl
        | CLEAR => exact Or.inl rfl
        | NOOP =>
          refine Or.inr (Or.inr ⟨rfl, ?_⟩)
          intro hc
          by_cases hw : 0 < ({ s with busy := true } : CommandHistory).coalescenceWindow
          · rw [if_pos hw] at hc
            exact hc
          · rw [if_neg hw] at hc
            exact absurd hc (by simp)
    split at h
    · split at h
      · exact norm (by simpa using h)
      · simp only [Except.ok.injEq, Prod.mk.injEq] at h
        obtain ⟨h1, -⟩ := h
        rw [← h1]
        exact Or.inr (Or.inl rfl)
      · simp only [Except.ok.injEq, Prod.mk.injEq] at h
        obtain ⟨h1, -⟩ := h
        rw [← h1]
        exact Or.inr (Or.inl rfl)
    · exact norm (by simpa using h)

/-- Claim C9, counterexample: the claimed invariant is false on the code.
Reachable run: execute A (ADD), execute B (ADD) within the window, then
`undo(2)` in which `B.undo()` resolves (B moves to the redo stack) but
`A.undo()` rejects — the exception propagates, so `can_coalesce = false`
is never executed (and `_busy` is never reset).  The resulting state is
reachable, has the coalescence-eligibility flag still set, and has a
non-empty redo stack. -/
theorem c9_counterexample :
    ∃ s, Reachable 3000 s ∧ s.can_coalesce = true ∧ s.redoCommands ≠ [] := by
  refine ⟨⟨[], [cmdB], true, true, 3000, true⟩, ?_, rfl, by decide⟩
  have h1 : Step (initHistory 3000) ⟨[cmdA], [], true, true, 3000, false⟩ :=
    Step.execStep (initHistory 3000) cmdA CoalescenceResult.IMMISCIBLE
      CommandResult.ADD false ⟨[cmdA], [], true, true, 3000, false⟩
      [Event.invokedExecute cmdA.id, Event.added cmdA.description] false (by rfl)
  have h2 : Step (⟨[cmdA], [], true, true, 3000, false⟩ : CommandHistory)
      ⟨[cmdB, cmdA], [], true, true, 3000, false⟩ :=
    Step.execStep ⟨[cmdA], [], true, true, 3000, false⟩ cmdB
      CoalescenceResult.IMMISCIBLE CommandResult.ADD false
      ⟨[cmdB, cmdA], [], true, true, 3000, false⟩
      [Event.invokedExecute cmdB.id, Event.added cmdB.description] false (by rfl)
  have h3 : Step (⟨[cmdB, cmdA], [], true, true, 3000, false⟩ : CommandHistory)
      ⟨[], [cmdB], true, true, 3000, true⟩ :=
    Step.undoStep ⟨[cmdB, cmdA], [], true, true, 3000, false⟩ 2
      (fun c => c.id == 0) ⟨[], [cmdB], true, true, 3000, true⟩
      [Event.invokedUndo cmdB.id, Event.undidInfo cmdB.description,
       Event.invokedUndo cmdA.id] true (by rfl)
  exact Relation.ReflTransGen.tail
    (Relation.ReflTransGen.tail (Relation.ReflTransGen.tail
      Relation.ReflTransGen.refl h1) h2) h3

/-- Claim C9, amended: in every engine state reachable from a fresh engine
by any sequence of `execute`, `undo`, `redo` (whether their awaited command
operations resolve or reject mid-way, with the failure behaviour of spec
section 7), `pop`, `clear`, `coalescenceBarrier` and coalescence-timer
expirations, if the coalescence-eligibility flag is set AND the engine is
not busy, then the redo stack is empty.  (The counterexample forces the
busy qualifier: a mid-loop rejection skips both the flag reset and the
busy-flag release, so the violating states are exactly states of a
permanently busy — deadlocked — engine.) -/
theorem c9_coalesce_implies_redo_empty (w : Int) (s : CommandHistory)
    (hr : Reachable w s) (hc : s.can_coalesce = true) (hb : s.busy = false) :
    s.redoCommands = [] := by
  revert hc hb
  induction hr with
  | refl => intro _ _; rfl
  | @tail b c hab hbc ih =>
    intro hc hb
    cases hbc with
    | execStep ncmd cr er applyRejects s2 evs failed h =>
      obtain ⟨hb0, h1 | h1 | ⟨h1, h2⟩⟩ :=
        executeF_ok_inv b ncmd cr er applyRejects c evs failed h
      · exact h1
      · rw [h1] at hb
        exact absurd hb (by simp)
      · rw [h1]
        exact ih (h2 hc) hb0
    | undoStep levels rejects s2 evs failed h =>
      obtain ⟨hb0, h1 | h1⟩ := undoF_ok_inv b levels rejects c evs failed h
      · rw [h1] at hb
        exact absurd hb (by simp)
      · rw [h1] at hc
        exact absurd hc (by simp)
    | redoStep levels rejects s2 evs failed h =>
      obtain ⟨hb0, h1 | h1⟩ := redoF_ok_inv b levels rejects c evs failed h
      · rw [h1] at hb
        exact absurd hb (by simp)
      · rw [h1] at hc
        exact absurd hc (by simp)
    | popStep s2 h =>
      cases hb0 : b.busy with
      | true => rw [pop_busy_eq b hb0] at h; exact absurd h (by simp)
      | false =>
        rw [pop_eq_of_not_busy b hb0] at h
        simp only [Except.ok.injEq] at h
        subst h
        exact ih hc hb0
    | clearStep s2 h =>
      cases hb0 : b.busy with
      | true => rw [clear_busy_eq b hb0] at h; exact absurd h (by simp)
      | false =>
        rw [clear_eq_of_not_busy b hb0] at h
        simp only [Except.ok.injEq] at h
        subst h
        rfl
    | barrierStep =>
      exact absurd hc (by simp [CommandHistory.coalescenceBarrier])
    | timerFire hti =>
      exact absurd hc (by simp)

/-- Claim C9, witness instance: the amended invariant applied to the
(reachable) fresh engine itself. -/
theorem c9_witness : (initHistory 3000).redoCommands = [] :=
  c9_coalesce_implies_redo_empty 3000 (initHistory 3000)
    Relation.ReflTransGen.refl rfl rfl


/-- Claim C10: on a non-busy engine, `pop()` succeeds (never throws, even on
an empty undo stack), drops exactly the top undo entry, and touches nothing
else: the redo stack, the coalescence flag, the busy flag, the timer handle
and the window are all unchanged; when the undo stack is empty the entire
state is unchanged. -/
theorem c10_pop_frame (s : CommandHistory) (hb : s.busy = false) :
    ∃ s2, s.pop = Except.ok s2 ∧
      s2.redoCommands = s.redoCommands ∧
      s2.can_coalesce = s.can_coalesce ∧
      s2.busy = s.busy ∧
      s2.timeoutId = s.timeoutId ∧
      s2.coalescenceWindow = s.coalescenceWindow ∧
      s2.undoCommands = s.undoCommands.tail ∧
      (s.undoCommands = [] → s2 = s) := by
  obtain ⟨us, rs, cc, ti, w, b⟩ := s
  simp only at hb
  subst hb
  refine ⟨_, pop_eq_of_not_busy _ rfl, rfl, rfl, rfl, rfl, rfl, rfl, ?_⟩
  intro h
  simp only at h
  subst h
  rfl

/-- Claim C10, witness instance: popping a fresh (empty) engine is a silent
no-op. -/
theorem c10_witness :
    ∃ s2, (initHistory 3000).pop = Except.ok s2 ∧
      s2.redoCommands = (initHistory 3000).redoCommands ∧
      s2.can_coalesce = (initHistory 3000).can_coalesce ∧
      s2.busy = (initHistory 3000).busy ∧
      s2.timeoutId = (initHistory 3000).timeoutId ∧
      s2.coalescenceWindow = (initHistory 3000).coalescenceWindow ∧
      s2.undoCommands = (initHistory 3000).undoCommands.tail ∧
      ((initHistory 3000).undoCommands = [] → s2 = initHistory 3000) :=
  c10_pop_frame (initHistory 3000) rfl
